import Mathlib

/-!
Verification of the reinforcement-learning library's hard core against its
specification.  `rl::FLOAT` (a C++ double used only through exact arithmetic
in the properties checked here) is modelled by `ℚ`; `std::map<spState<S>,
FLOAT>` is modelled by an association list `List (S × ℚ)` together with the
`insert` / `operator[]` / `at` / `find` operations the source uses.
Randomness (`std::random_device`, `std::uniform_real_distribution`) is made
explicit: every random draw becomes a parameter of the modelled function,
constrained to the half-open interval the distribution produces.
-/

set_option linter.unusedSectionVars false
set_option linter.unusedVariables false

namespace RLSpec

section AssocMap

variable {S : Type} [DecidableEq S]

/-- `std::map` lookup (`find` / read side of `operator[]`): the value stored
at key `k`, if any. -/
def alookup : List (S × ℚ) → S → Option ℚ
  | [], _ => none
  | p :: ps, k => if p.1 = k then some p.2 else alookup ps k

/-- The key set of a map, as the list of keys in iteration order. -/
def akeys (m : List (S × ℚ)) : List S := m.map Prod.fst

/-- `std::map::insert`: adds `(k, v)` only when `k` is not already a key;
an existing entry is left unchanged. -/
def mapInsert (m : List (S × ℚ)) (k : S) (v : ℚ) : List (S × ℚ) :=
  if (alookup m k).isSome then m else m ++ [(k, v)]

/-- `std::map::operator[] = v`: overwrites the value at `k` when present,
otherwise inserts `(k, v)` (operator[] default-constructs then assigns). -/
def mapSet (m : List (S × ℚ)) (k : S) (v : ℚ) : List (S × ℚ) :=
  if (alookup m k).isSome then
    m.map (fun p => (p.1, if p.1 = k then v else p.2))
  else m ++ [(k, v)]

lemma alookup_map_valfn (g : S → ℚ → ℚ) (l : List (S × ℚ)) (k : S) :
    alookup (l.map (fun p => (p.1, g p.1 p.2))) k = (alookup l k).map (g k) := by
  induction l with
  | nil => rfl
  | cons p ps ih =>
    simp only [List.map_cons, alookup]
    by_cases h : p.1 = k
    · subst h; simp
    · simp [h, ih]

lemma akeys_map_valfn (g : S → ℚ → ℚ) (l : List (S × ℚ)) :
    akeys (l.map (fun p => (p.1, g p.1 p.2))) = akeys l := by
  induction l with
  | nil => rfl
  | cons p ps ih => simp only [List.map_cons, akeys] at *; simp [ih]

lemma alookup_append (l₁ l₂ : List (S × ℚ)) (k : S) :
    alookup (l₁ ++ l₂) k = ((alookup l₁ k).or (alookup l₂ k)) := by
  induction l₁ with
  | nil => simp [alookup]
  | cons p ps ih =>
    simp only [List.cons_append, alookup]
    by_cases h : p.1 = k <;> simp [h, ih]

lemma alookup_isSome_iff_mem (l : List (S × ℚ)) (k : S) :
    (alookup l k).isSome = true ↔ k ∈ akeys l := by
  induction l with
  | nil => simp [alookup, akeys]
  | cons p ps ih =>
    simp only [alookup, akeys, List.map_cons, List.mem_cons]
    by_cases h : p.1 = k
    · simp [h]
    · simp only [h, if_false, ih, akeys]
      constructor
      · exact fun hm => Or.inr hm
      · rintro (hm | hm)
        · exact absurd hm.symm h
        · exact hm

lemma alookup_eq_none_iff_not_mem (l : List (S × ℚ)) (k : S) :
    alookup l k = none ↔ k ∉ akeys l := by
  rw [← alookup_isSome_iff_mem]
  cases alookup l k <;> simp

lemma alookup_mem (l : List (S × ℚ)) (k : S) (v : ℚ) (h : alookup l k = some v) :
    (k, v) ∈ l := by
  induction l with
  | nil => simp [alookup] at h
  | cons p ps ih =>
    simp only [alookup] at h
    by_cases hk : p.1 = k
    · rw [if_pos hk] at h
      have hp : p = (k, v) := by
        obtain ⟨a, b⟩ := p
        simp only [Option.some.injEq] at h
        simp_all
      rw [hp]
      exact List.mem_cons_self _ _
    · rw [if_neg hk] at h
      exact List.mem_cons_of_mem _ (ih h)

lemma mapInsert_alookup_same (m : List (S × ℚ)) (k : S) (v : ℚ) :
    alookup (mapInsert m k v) k = some ((alookup m k).getD v) := by
  unfold mapInsert
  cases h : alookup m k with
  | some w => simp [h]
  | none => simp [h, alookup_append, alookup]

lemma mapInsert_alookup_other (m : List (S × ℚ)) (k k' : S) (v : ℚ) (hne : k' ≠ k) :
    alookup (mapInsert m k v) k' = alookup m k' := by
  unfold mapInsert
  cases h : (alookup m k).isSome with
  | true => simp
  | false => simp [alookup_append, alookup, hne.symm]

lemma mapInsert_akeys (m : List (S × ℚ)) (k : S) (v : ℚ) :
    akeys (mapInsert m k v) = if k ∈ akeys m then akeys m else akeys m ++ [k] := by
  unfold mapInsert
  by_cases h : k ∈ akeys m
  · rw [if_pos ((alookup_isSome_iff_mem m k).mpr h), if_pos h]
  · rw [if_neg (by simp [alookup_isSome_iff_mem, h]), if_neg h]
    simp [akeys]

lemma mapSet_alookup_same (m : List (S × ℚ)) (k : S) (v : ℚ) :
    alookup (mapSet m k v) k = some v := by
  unfold mapSet
  cases h : alookup m k with
  | some w =>
    rw [if_pos (by simp [h])]
    have := alookup_map_valfn (fun a b => if a = k then v else b) m k
    simp only [this, h, Option.map_some]
    simp
  | none => simp [h, alookup_append, alookup]

lemma mapSet_alookup_other (m : List (S × ℚ)) (k k' : S) (v : ℚ) (hne : k' ≠ k) :
    alookup (mapSet m k v) k' = alookup m k' := by
  unfold mapSet
  by_cases h : (alookup m k).isSome = true
  · rw [if_pos h]
    have := alookup_map_valfn (fun a b => if a = k then v else b) m k'
    simp only [this, if_neg hne]
    cases alookup m k' <;> simp
  · rw [if_neg h, alookup_append]
    simp [alookup, hne.symm]

lemma mapSet_akeys_of_mem (m : List (S × ℚ)) (k : S) (v : ℚ) (h : k ∈ akeys m) :
    akeys (mapSet m k v) = akeys m := by
  unfold mapSet
  rw [if_pos ((alookup_isSome_iff_mem m k).mpr h)]
  exact akeys_map_valfn (fun a b => if a = k then v else b) m

lemma mapSet_values (m : List (S × ℚ)) (k : S) (v : ℚ) (p : S × ℚ)
    (hp : p ∈ mapSet m k v) : p.2 = v ∨ ∃ q ∈ m, p.2 = q.2 := by
  unfold mapSet at hp
  by_cases h : (alookup m k).isSome
  · rw [if_pos h] at hp
    obtain ⟨q, hq, hpq⟩ := List.mem_map.mp hp
    by_cases hk : q.1 = k
    · left; rw [← hpq]; simp [hk]
    · right; exact ⟨q, hq, by rw [← hpq]; simp [hk]⟩
  · rw [if_neg h] at hp
    rcases List.mem_append.mp hp with hq | hq
    · right; exact ⟨p, hq, rfl⟩
    · left; simp at hq; simp [hq]

end AssocMap

section SAT

variable {S : Type} [DecidableEq S]

/-- The error kinds the model-side code surfaces: `StateActionTransitionException`
with message "nextStates are empty." (`empty`), the same exception type with
message "state not yet added." (`missing`), and `std::out_of_range` from
`std::map::at` (`outOfRange`). -/
inductive SATError where
  | empty
  | missing
  | outOfRange
deriving DecidableEq

/-- `rl::agent::StateActionTransition<S>`: the learned model of one
`(state, action)` pair.  Two maps over transition states (frequency and
reward) plus the `_greedy` and `_stepSize` scalars. -/
structure StateActionTransition (S : Type) where
  freq : List (S × ℚ)
  reward : List (S × ℚ)
  greedy : ℚ
  stepSize : ℚ
deriving DecidableEq

namespace StateActionTransition

/-- The two-argument constructor: stores `greedy` and `stepSize`, leaves both
maps default-constructed (empty).  The source constructor body performs no
validation of either argument, so, modelled as a fallible construction the
spec's error design calls for, it always returns `Except.ok`. -/
def construct (greedy stepSize : ℚ) : Except Unit (StateActionTransition S) :=
  Except.ok { freq := [], reward := [], greedy := greedy, stepSize := stepSize }

/-- The freshly constructed (empty) model. -/
def mk0 (greedy stepSize : ℚ) : StateActionTransition S :=
  { freq := [], reward := [], greedy := greedy, stepSize := stepSize }

/-- `StateActionTransition::update(nextState, reward)`, line for line:
insert `(nextState, 0)` / `(nextState, reward)` into the two maps (no-ops on
existing keys), decay every other frequency by `f += stepSize*(0 - f)`,
raise the next state's frequency by `f += stepSize*(1 - f)`, and overwrite
its reward by `r += 1*(reward - r)`. -/
def update (m : StateActionTransition S) (nextState : S) (reward : ℚ) :
    StateActionTransition S :=
  let freq1 := mapInsert m.freq nextState 0
  let reward1 := mapInsert m.reward nextState reward
  let freq2 := freq1.map (fun p =>
    (p.1, if p.1 = nextState then p.2 else p.2 + m.stepSize * (0 - p.2)))
  let f := (alookup freq2 nextState).getD 0
  let freq3 := mapSet freq2 nextState (f + m.stepSize * (1 - f))
  let r0 := (alookup reward1 nextState).getD 0
  let reward2 := mapSet reward1 nextState (r0 + 1 * (reward - r0))
  { m with freq := freq3, reward := reward2 }

/-- `_findState`: membership test against the frequency map. -/
def findState (m : StateActionTransition S) (s : S) : Bool :=
  (alookup m.freq s).isSome

/-- `getReward(state)`: throws `missing` when `_findState` fails, otherwise
returns `_stateActionTransitionReward.at(state)` (whose own failure mode,
unreachable on states this class builds, is `outOfRange`). -/
def getReward (m : StateActionTransition S) (s : S) : Except SATError ℚ :=
  if m.findState s = false then Except.error SATError.missing
  else
    match alookup m.reward s with
    | some v => Except.ok v
    | none => Except.error SATError.outOfRange

/-- `freqValSum`: the loop summing every stored frequency. -/
def freqSum (l : List (S × ℚ)) : ℚ := l.foldl (fun acc p => acc + p.2) 0

/-- The weighted-selection walk at the end of `getNextState`: return the
first key whose frequency exceeds what remains of the drawn number,
subtracting as it goes.  Falling off the end is the source's
`assert(false)`, modelled as `none`. -/
def weightedWalk : List (S × ℚ) → ℚ → Option S
  | [], _ => none
  | p :: ps, v => if p.2 > v then some p.1 else weightedWalk ps (v - p.2)

/-- `getNextState()` with its three random draws made explicit:
`u` is the `U(0,1)` draw compared against `_greedy`, `ridx` the raw
`_randomDevice()` value used for the uniformly random branch, and `v` the
`U(0, freqValSum)` draw driving the weighted walk. -/
def getNextState (m : StateActionTransition S) (u : ℚ) (ridx : ℕ) (v : ℚ) :
    Except SATError (Option S) :=
  if m.freq.length = 0 then Except.error SATError.empty
  else if u > m.greedy then
    Except.ok ((m.freq.get? (ridx % m.freq.length)).map Prod.fst)
  else Except.ok (weightedWalk m.freq v)

/-- `getSize()`. -/
def getSize (m : StateActionTransition S) : ℕ := m.freq.length

/-- `getStepSize()`. -/
def getStepSize (m : StateActionTransition S) : ℚ := m.stepSize

/-- `getGreedy()`. -/
def getGreedy (m : StateActionTransition S) : ℚ := m.greedy

/-- A finite sequence of `update` calls, applied in order. -/
def applyUpdates (m : StateActionTransition S) (calls : List (S × ℚ)) :
    StateActionTransition S :=
  calls.foldl (fun acc c => acc.update c.1 c.2) m

end StateActionTransition

end SAT

section SATLemmas

open StateActionTransition

variable {S : Type} [DecidableEq S]

lemma update_stepSize (m : StateActionTransition S) (s : S) (r : ℚ) :
    (m.update s r).stepSize = m.stepSize := rfl

lemma update_greedy (m : StateActionTransition S) (s : S) (r : ℚ) :
    (m.update s r).greedy = m.greedy := rfl

lemma update_freq_lookup_self (m : StateActionTransition S) (s : S) (r : ℚ) :
    alookup (m.update s r).freq s =
      some ((1 - m.stepSize) * (alookup m.freq s).getD 0 + m.stepSize) := by
  unfold update
  simp only
  have h2 := alookup_map_valfn
    (fun a b => if a = s then b else b + m.stepSize * (0 - b))
    (mapInsert m.freq s 0) s
  rw [mapSet_alookup_same, h2, mapInsert_alookup_same]
  simp only [Option.map_some', eq_self_iff_true, if_true, Option.getD_some,
    Option.some.injEq]
  ring

lemma update_freq_lookup_other (m : StateActionTransition S) (s k : S) (r : ℚ)
    (hne : k ≠ s) :
    alookup (m.update s r).freq k =
      (alookup m.freq k).map (fun x => (1 - m.stepSize) * x) := by
  unfold update
  simp only
  have h2 := alookup_map_valfn
    (fun a b => if a = s then b else b + m.stepSize * (0 - b))
    (mapInsert m.freq s 0) k
  rw [mapSet_alookup_other _ _ _ _ hne, h2, mapInsert_alookup_other _ _ _ _ hne]
  cases alookup m.freq k with
  | none => rfl
  | some x =>
    simp only [Option.map_some', if_neg hne, Option.some.injEq]
    ring

lemma update_reward_lookup_self (m : StateActionTransition S) (s : S) (r : ℚ) :
    alookup (m.update s r).reward s = some r := by
  unfold update
  simp only
  rw [mapSet_alookup_same]
  congr 1
  ring

lemma update_freq_akeys (m : StateActionTransition S) (s : S) (r : ℚ) :
    akeys (m.update s r).freq = akeys (mapInsert m.freq s 0) := by
  unfold update
  simp only
  have hmem : s ∈ akeys ((mapInsert m.freq s 0).map (fun p =>
      (p.1, if p.1 = s then p.2 else p.2 + m.stepSize * (0 - p.2)))) := by
    rw [← alookup_isSome_iff_mem]
    rw [alookup_map_valfn (fun a b => if a = s then b else b + m.stepSize * (0 - b)),
      mapInsert_alookup_same]
    rfl
  rw [mapSet_akeys_of_mem _ _ _ hmem]
  exact akeys_map_valfn
    (fun a b => if a = s then b else b + m.stepSize * (0 - b)) (mapInsert m.freq s 0)

lemma update_reward_akeys (m : StateActionTransition S) (s : S) (r : ℚ) :
    akeys (m.update s r).reward = akeys (mapInsert m.reward s r) := by
  unfold update
  simp only
  refine mapSet_akeys_of_mem _ _ _ ?_
  rw [← alookup_isSome_iff_mem, mapInsert_alookup_same]
  rfl

lemma update_keys_eq (m : StateActionTransition S) (s : S) (r : ℚ)
    (h : akeys m.freq = akeys m.reward) :
    akeys (m.update s r).freq = akeys (m.update s r).reward := by
  rw [update_freq_akeys, update_reward_akeys, mapInsert_akeys, mapInsert_akeys, h]

lemma update_freq_nonneg (m : StateActionTransition S) (s : S) (r : ℚ)
    (hβ0 : 0 ≤ m.stepSize) (hβ1 : m.stepSize ≤ 1)
    (h : ∀ p ∈ m.freq, 0 ≤ p.2) :
    ∀ p ∈ (m.update s r).freq, 0 ≤ p.2 := by
  intro p hp
  unfold update at hp
  simp only at hp
  -- every value in the pre-`mapSet` decayed map is non-negative
  have hmid : ∀ q ∈ (mapInsert m.freq s 0).map (fun p =>
      (p.1, if p.1 = s then p.2 else p.2 + m.stepSize * (0 - p.2))), 0 ≤ q.2 := by
    intro q hq
    obtain ⟨q', hq', hqq⟩ := List.mem_map.mp hq
    have hq'0 : 0 ≤ q'.2 := by
      unfold mapInsert at hq'
      by_cases hins : (alookup m.freq s).isSome
      · rw [if_pos hins] at hq'
        exact h q' hq'
      · rw [if_neg hins] at hq'
        rcases List.mem_append.mp hq' with hh | hh
        · exact h q' hh
        · simp at hh; simp [hh]
    rw [← hqq]
    by_cases hqs : q'.1 = s
    · simpa [hqs] using hq'0
    · simp only [if_neg hqs]
      nlinarith
  rcases mapSet_values _ _ _ _ hp with hv | ⟨q, hq, hv⟩
  · rw [hv]
    set f := (alookup ((mapInsert m.freq s 0).map (fun p =>
      (p.1, if p.1 = s then p.2 else p.2 + m.stepSize * (0 - p.2)))) s).getD 0 with hf
    have hf0 : 0 ≤ f := by
      rw [hf]
      cases hl : alookup ((mapInsert m.freq s 0).map (fun p =>
          (p.1, if p.1 = s then p.2 else p.2 + m.stepSize * (0 - p.2)))) s with
      | none => simp
      | some x =>
        have := hmid _ (alookup_mem _ _ _ hl)
        simpa using this
    nlinarith
  · rw [hv]
    exact hmid q hq

lemma applyUpdates_stepSize (m : StateActionTransition S) (calls : List (S × ℚ)) :
    (m.applyUpdates calls).stepSize = m.stepSize := by
  induction calls generalizing m with
  | nil => rfl
  | cons c cs ih => simpa [applyUpdates] using ih (m.update c.1 c.2)

lemma applyUpdates_append (m : StateActionTransition S) (l₁ l₂ : List (S × ℚ)) :
    m.applyUpdates (l₁ ++ l₂) = (m.applyUpdates l₁).applyUpdates l₂ := by
  simp [applyUpdates, List.foldl_append]

lemma applyUpdates_freq_nonneg (m : StateActionTransition S) (calls : List (S × ℚ))
    (hβ0 : 0 ≤ m.stepSize) (hβ1 : m.stepSize ≤ 1)
    (h : ∀ p ∈ m.freq, 0 ≤ p.2) :
    ∀ p ∈ (m.applyUpdates calls).freq, 0 ≤ p.2 := by
  induction calls generalizing m with
  | nil => exact h
  | cons c cs ih =>
    simp only [applyUpdates, List.foldl_cons]
    exact ih (m.update c.1 c.2) hβ0 hβ1 (update_freq_nonneg m c.1 c.2 hβ0 hβ1 h)

lemma freqSum_foldl_shift (l : List (S × ℚ)) (a : ℚ) :
    l.foldl (fun acc p => acc + p.2) a = a + StateActionTransition.freqSum l := by
  induction l generalizing a with
  | nil => simp [freqSum]
  | cons p ps ih =>
    simp only [freqSum, List.foldl_cons] at *
    rw [ih (a + p.2), ih (0 + p.2)]
    ring

lemma freqSum_cons (p : S × ℚ) (l : List (S × ℚ)) :
    StateActionTransition.freqSum (p :: l) = p.2 + StateActionTransition.freqSum l := by
  show l.foldl (fun acc q => acc + q.2) (0 + p.2) = p.2 + StateActionTransition.freqSum l
  rw [freqSum_foldl_shift]
  ring

lemma freqSum_nonneg (l : List (S × ℚ)) (h : ∀ p ∈ l, 0 ≤ p.2) :
    0 ≤ StateActionTransition.freqSum l := by
  induction l with
  | nil => simp [freqSum]
  | cons p ps ih =>
    rw [freqSum_cons]
    have h1 := h p (List.mem_cons_self _ _)
    have h2 := ih (fun q hq => h q (List.mem_cons_of_mem _ hq))
    linarith

lemma freqSum_pos_of_mem (l : List (S × ℚ)) (s : S) (x : ℚ)
    (hmem : (s, x) ∈ l) (hx : 0 < x) (hnn : ∀ p ∈ l, 0 ≤ p.2) :
    0 < StateActionTransition.freqSum l := by
  induction l with
  | nil => simp at hmem
  | cons q ps ih =>
    rw [freqSum_cons]
    rcases List.mem_cons.mp hmem with hq | hq
    · have h2 := freqSum_nonneg ps (fun p hp => hnn p (List.mem_cons_of_mem _ hp))
      rw [← hq]
      simp only
      linarith
    · have h1 := hnn q (List.mem_cons_self _ _)
      have h2 := ih hq (fun p hp => hnn p (List.mem_cons_of_mem _ hp))
      linarith

/-- The weighted walk cannot fall off the end of the map: whenever the drawn
number lies below the total frequency mass and all frequencies are
non-negative, some stored key is returned. -/
lemma weightedWalk_mem (l : List (S × ℚ)) (v : ℚ)
    (hnn : ∀ p ∈ l, 0 ≤ p.2) (hv0 : 0 ≤ v)
    (hvF : v < StateActionTransition.freqSum l) :
    ∃ s, StateActionTransition.weightedWalk l v = some s ∧ s ∈ akeys l := by
  induction l generalizing v with
  | nil =>
    simp only [freqSum, List.foldl_nil] at hvF
    linarith
  | cons p ps ih =>
    rw [freqSum_cons] at hvF
    unfold weightedWalk
    by_cases h : p.2 > v
    · exact ⟨p.1, by rw [if_pos h], by simp [akeys]⟩
    · rw [if_neg h]
      push_neg at h
      obtain ⟨s, hw, hs⟩ := ih (v - p.2)
        (fun q hq => hnn q (List.mem_cons_of_mem _ hq))
        (by linarith) (by linarith)
      exact ⟨s, hw, by simp [akeys]; right; simpa [akeys] using hs⟩

lemma update_freq_mem_self (m : StateActionTransition S) (s : S) (r : ℚ) :
    s ∈ akeys (m.update s r).freq := by
  rw [← alookup_isSome_iff_mem, update_freq_lookup_self]
  rfl

lemma update_freq_ne_nil (m : StateActionTransition S) (s : S) (r : ℚ) :
    (m.update s r).freq ≠ [] := by
  intro h
  have := update_freq_mem_self m s r
  rw [h] at this
  simp [akeys] at this

lemma applyUpdates_freq_ne_nil (cs : List (S × ℚ)) (m : StateActionTransition S)
    (c : S × ℚ) : (m.applyUpdates (c :: cs)).freq ≠ [] := by
  induction cs generalizing m c with
  | nil => exact update_freq_ne_nil m c.1 c.2
  | cons c' cs' ih =>
    show ((m.update c.1 c.2).applyUpdates (c' :: cs')).freq ≠ []
    exact ih (m.update c.1 c.2) c'

lemma update_freqSum_pos (m : StateActionTransition S) (s : S) (r : ℚ)
    (hβ0 : 0 < m.stepSize) (hβ1 : m.stepSize ≤ 1)
    (hnn : ∀ p ∈ m.freq, 0 ≤ p.2) :
    0 < StateActionTransition.freqSum (m.update s r).freq := by
  have hval := update_freq_lookup_self m s r
  have hmem := alookup_mem _ _ _ hval
  have hnn' := update_freq_nonneg m s r (le_of_lt hβ0) hβ1 hnn
  refine freqSum_pos_of_mem _ _ _ hmem ?_ hnn'
  have hf0 : 0 ≤ (alookup m.freq s).getD 0 := by
    cases h : alookup m.freq s with
    | none => simp
    | some x => simpa using hnn _ (alookup_mem _ _ _ h)
  nlinarith

lemma applyUpdates_freqSum_pos (cs : List (S × ℚ)) (m : StateActionTransition S)
    (c : S × ℚ) (hβ0 : 0 < m.stepSize) (hβ1 : m.stepSize ≤ 1)
    (hnn : ∀ p ∈ m.freq, 0 ≤ p.2) :
    0 < StateActionTransition.freqSum (m.applyUpdates (c :: cs)).freq := by
  induction cs generalizing m c with
  | nil => exact update_freqSum_pos m c.1 c.2 hβ0 hβ1 hnn
  | cons c' cs' ih =>
    show 0 < StateActionTransition.freqSum
      (((m.update c.1 c.2)).applyUpdates (c' :: cs')).freq
    exact ih (m.update c.1 c.2) c' hβ0 hβ1
      (update_freq_nonneg m c.1 c.2 (le_of_lt hβ0) hβ1 hnn)

lemma applyUpdates_keys_eq (calls : List (S × ℚ)) (m : StateActionTransition S)
    (h : akeys m.freq = akeys m.reward) :
    akeys (m.applyUpdates calls).freq = akeys (m.applyUpdates calls).reward := by
  induction calls generalizing m with
  | nil => exact h
  | cons c cs ih =>
    exact ih (m.update c.1 c.2) (update_keys_eq m c.1 c.2 h)

lemma applyUpdates_replicate_self (m0 : StateActionTransition S) (s : S) (r : ℚ)
    (hs : alookup m0.freq s = none) (T : ℕ) :
    alookup (m0.applyUpdates (List.replicate T (s, r))).freq s =
      if T = 0 then none else some (1 - (1 - m0.stepSize) ^ T) := by
  induction T with
  | zero => simpa [applyUpdates] using hs
  | succ n ih =>
    rw [List.replicate_succ', applyUpdates_append]
    show alookup ((m0.applyUpdates (List.replicate n (s, r))).update s r).freq s = _
    rw [update_freq_lookup_self, applyUpdates_stepSize, ih,
      if_neg (Nat.succ_ne_zero n)]
    have hgd : ((if n = 0 then none else
        some (1 - (1 - m0.stepSize) ^ n)) : Option ℚ).getD 0 =
        1 - (1 - m0.stepSize) ^ n := by
      by_cases hn : n = 0
      · subst hn; simp
      · rw [if_neg hn, Option.getD_some]
    rw [hgd, Option.some.injEq]
    ring

lemma applyUpdates_replicate_other (m0 : StateActionTransition S) (s k : S)
    (r c : ℚ) (hk : k ≠ s) (hc : alookup m0.freq k = some c) (T : ℕ) :
    alookup (m0.applyUpdates (List.replicate T (s, r))).freq k =
      some ((1 - m0.stepSize) ^ T * c) := by
  induction T with
  | zero => simpa [applyUpdates] using hc
  | succ n ih =>
    rw [List.replicate_succ', applyUpdates_append]
    show alookup ((m0.applyUpdates (List.replicate n (s, r))).update s r).freq k = _
    rw [update_freq_lookup_other _ _ _ _ hk, applyUpdates_stepSize, ih]
    simp only [Option.map_some', Option.some.injEq]
    ring

end SATLemmas

section SATClaims

open StateActionTransition

variable {S : Type} [DecidableEq S]

/-- C1: with stepSize `β ∈ (0,1]`, starting from a model in which `s` is not
yet a key, `T ≥ 1` calls of `update (s, r)` leave `freq[s] = 1 - (1-β)^T`,
and any key `k ≠ s` that was present with value `c` before those calls holds
`(1-β)^T * c` afterwards (the empty model is the special case with no such
`k`). -/
theorem sat_update_model_law (m0 : StateActionTransition S) (s : S) (r : ℚ)
    (T : ℕ) (hβ0 : 0 < m0.stepSize) (hβ1 : m0.stepSize ≤ 1) (hT : 1 ≤ T)
    (hs : alookup m0.freq s = none) :
    alookup (m0.applyUpdates (List.replicate T (s, r))).freq s =
      some (1 - (1 - m0.stepSize) ^ T) ∧
    ∀ k c, k ≠ s → alookup m0.freq k = some c →
      alookup (m0.applyUpdates (List.replicate T (s, r))).freq k =
        some ((1 - m0.stepSize) ^ T * c) := by
  constructor
  · rw [applyUpdates_replicate_self m0 s r hs T, if_neg (by omega)]
  · intro k c hk hc
    exact applyUpdates_replicate_other m0 s k r c hk hc T

/-- Witness for C1: a model holding key 7 (reached by one update from the
empty model with stepSize 1), then two updates of state 3 with that
stepSize: `freq[3] = 1 - (1-1)^2 = 1` and every pre-existing key decays by
`(1-1)^2 = 0`. -/
theorem sat_update_model_law_witness :
    alookup ((((StateActionTransition.mk0 1 1 :
        StateActionTransition ℕ).applyUpdates [(7, 2)]).applyUpdates
        (List.replicate 2 (3, 5))).freq) 3 =
      some (1 - (1 - (1 : ℚ)) ^ 2) ∧
    ∀ k c, k ≠ 3 → alookup (((StateActionTransition.mk0 1 1 :
        StateActionTransition ℕ).applyUpdates [(7, 2)]).freq) k = some c →
      alookup ((((StateActionTransition.mk0 1 1 :
        StateActionTransition ℕ).applyUpdates [(7, 2)]).applyUpdates
        (List.replicate 2 (3, 5))).freq) k = some ((1 - (1 : ℚ)) ^ 2 * c) :=
  sat_update_model_law
    ((StateActionTransition.mk0 1 1 : StateActionTransition ℕ).applyUpdates
      [(7, 2)])
    3 5 2 (by decide) (by decide) (by norm_num) (by decide)

/-- C6: starting from the empty model, after any finite sequence of `update`
calls the key set of the frequency map equals the key set of the reward map
(the read-only operations of the class do not touch either map). -/
theorem sat_keysets_equal (g β : ℚ) (calls : List (S × ℚ)) :
    akeys ((StateActionTransition.mk0 g β (S := S)).applyUpdates calls).freq =
      akeys ((StateActionTransition.mk0 g β (S := S)).applyUpdates calls).reward :=
  applyUpdates_keys_eq calls (StateActionTransition.mk0 g β) rfl

/-- C9: with stepSize in `(0,1]`, every frequency value stored after any
finite sequence of `update` calls from the empty model is non-negative. -/
theorem sat_freq_nonneg (g β : ℚ) (hβ0 : 0 < β) (hβ1 : β ≤ 1)
    (calls : List (S × ℚ)) :
    ((StateActionTransition.mk0 g β (S := S)).applyUpdates calls).freq.all
      (fun p => decide (0 ≤ p.2)) = true := by
  rw [List.all_eq_true]
  intro p hp
  rw [decide_eq_true_eq]
  exact applyUpdates_freq_nonneg (StateActionTransition.mk0 g β) calls
    (le_of_lt hβ0) hβ1 (by intro q hq; simp [StateActionTransition.mk0] at hq) p hp

/-- Witness for C9: after the calls `update (0, 3)`, `update (5, -2)` with
stepSize 1 every stored frequency is non-negative. -/
theorem sat_freq_nonneg_witness :
    ((StateActionTransition.mk0 1 1 :
        StateActionTransition ℕ).applyUpdates [(0, 3), (5, -2)]).freq.all
      (fun p => decide (0 ≤ p.2)) = true :=
  sat_freq_nonneg (S := ℕ) 1 1 (by decide) (by decide) [(0, 3), (5, -2)]

/-- C10: `update` never touches the `_greedy` or `_stepSize` scalars:
`getGreedy` and `getStepSize` agree before and after any update. -/
theorem sat_update_preserves_scalars :
    ∀ (m : StateActionTransition S) (s : S) (r : ℚ),
      (m.update s r).getGreedy = m.getGreedy ∧
      (m.update s r).getStepSize = m.getStepSize :=
  fun _ _ _ => ⟨rfl, rfl⟩

/-- C7: on any model reached from the empty model by `update` calls,
`getReward s` fails with the `missing` error exactly when `s` is not a key,
and when the reward map stores `v` at `s` it returns `v` (the embedding of
this `const` method is a pure function of the model, so the model state is
unchanged by construction). -/
theorem sat_getReward_spec (g β : ℚ) (calls : List (S × ℚ)) (s : S) :
    (((StateActionTransition.mk0 g β (S := S)).applyUpdates calls).getReward s =
        Except.error SATError.missing ↔
      s ∉ akeys ((StateActionTransition.mk0 g β (S := S)).applyUpdates calls).freq) ∧
    (∀ v, alookup ((StateActionTransition.mk0 g β (S := S)).applyUpdates
        calls).reward s = some v →
      ((StateActionTransition.mk0 g β (S := S)).applyUpdates calls).getReward s =
        Except.ok v) := by
  set m := (StateActionTransition.mk0 g β (S := S)).applyUpdates calls with hm
  have hkeys : akeys m.freq = akeys m.reward :=
    applyUpdates_keys_eq calls (StateActionTransition.mk0 g β) rfl
  constructor
  · unfold StateActionTransition.getReward StateActionTransition.findState
    by_cases h : (alookup m.freq s).isSome = true
    · rw [if_neg (by simp [h])]
      have hmem : s ∈ akeys m.freq := (alookup_isSome_iff_mem _ _).mp h
      have hmem' : s ∈ akeys m.reward := hkeys ▸ hmem
      obtain ⟨v, hv⟩ := Option.isSome_iff_exists.mp
        ((alookup_isSome_iff_mem _ _).mpr hmem')
      rw [hv]
      simp [hmem]
    · rw [if_pos (by simpa using h)]
      simp only [true_iff]
      rw [← alookup_isSome_iff_mem]
      simp_all
  · intro v hv
    unfold StateActionTransition.getReward StateActionTransition.findState
    have hmem' : s ∈ akeys m.reward :=
      (alookup_isSome_iff_mem _ _).mp (by simp [hv])
    have hmem : s ∈ akeys m.freq := hkeys ▸ hmem'
    rw [if_neg (by simp [(alookup_isSome_iff_mem _ _).mpr hmem]), hv]

/-- Witness for C7: after `update (0, 5)` from the empty model,
`getReward 0` returns `5`. -/
theorem sat_getReward_spec_witness :
    ((StateActionTransition.mk0 1 1 :
        StateActionTransition ℕ).applyUpdates [(0, 5)]).getReward 0 =
      Except.ok (5 : ℚ) :=
  (sat_getReward_spec (S := ℕ) 1 1 [(0, 5)] 0).2 5 (by
    norm_num [StateActionTransition.applyUpdates, StateActionTransition.update,
      StateActionTransition.mk0, mapInsert, mapSet, alookup])

/-- `true` exactly when the sampling result is `ok (some s)` for a stored
key `s` of the model's frequency map. -/
def resultIsStoredKey (m : StateActionTransition S)
    (res : Except SATError (Option S)) : Bool :=
  match res with
  | Except.ok (some s) => decide (s ∈ akeys m.freq)
  | _ => false

/-- C5: `getNextState` on an empty model fails with the `empty` error; on
a model produced by at least one `update` with stepSize in `(0,1]` the total
frequency mass is positive and, for every outcome of the three internal
random draws (`u` arbitrary, `ridx` arbitrary, `v` in the half-open range
`[0, freqValSum)` the weighted-selection distribution produces), a stored
key is returned — the terminal `assert(false)` is unreachable. -/
theorem sat_getNextState_total (g β : ℚ) (hβ0 : 0 < β) (hβ1 : β ≤ 1)
    (me : StateActionTransition S) (hme : me.freq = [])
    (c : S × ℚ) (calls : List (S × ℚ)) (u v : ℚ) (ridx : ℕ)
    (hv0 : 0 ≤ v)
    (hvF : v < StateActionTransition.freqSum
      ((StateActionTransition.mk0 g β (S := S)).applyUpdates (c :: calls)).freq)
    (u2 v2 : ℚ) (ridx2 : ℕ) :
    me.getNextState u2 ridx2 v2 = Except.error SATError.empty ∧
    0 < StateActionTransition.freqSum
      ((StateActionTransition.mk0 g β (S := S)).applyUpdates (c :: calls)).freq ∧
    resultIsStoredKey ((StateActionTransition.mk0 g β (S := S)).applyUpdates
        (c :: calls))
      (((StateActionTransition.mk0 g β (S := S)).applyUpdates
        (c :: calls)).getNextState u ridx v) = true := by
  set m := (StateActionTransition.mk0 g β (S := S)).applyUpdates (c :: calls)
    with hm
  have hnn : ∀ p ∈ m.freq, 0 ≤ p.2 :=
    applyUpdates_freq_nonneg _ _ (le_of_lt hβ0) hβ1
      (by intro q hq; simp [StateActionTransition.mk0] at hq)
  have hne : m.freq ≠ [] :=
    applyUpdates_freq_ne_nil calls (StateActionTransition.mk0 g β) c
  have hlen : m.freq.length ≠ 0 := fun h => hne (List.length_eq_zero.mp h)
  refine ⟨?_, ?_, ?_⟩
  · unfold StateActionTransition.getNextState
    rw [if_pos (by rw [hme]; rfl)]
  · exact applyUpdates_freqSum_pos calls (StateActionTransition.mk0 g β) c
      hβ0 hβ1 (by intro q hq; simp [StateActionTransition.mk0] at hq)
  · unfold StateActionTransition.getNextState
    rw [if_neg hlen]
    by_cases hu : u > m.greedy
    · rw [if_pos hu]
      have hidx : ridx % m.freq.length < m.freq.length :=
        Nat.mod_lt _ (Nat.pos_of_ne_zero hlen)
      obtain ⟨p, hp⟩ := Option.isSome_iff_exists.mp
        (by rw [List.get?_eq_get hidx]; rfl :
          (m.freq.get? (ridx % m.freq.length)).isSome = true)
      have hpmem : p ∈ m.freq := List.get?_mem hp
      rw [hp]
      unfold resultIsStoredKey
      simp only [Option.map_some']
      rw [decide_eq_true_eq]
      exact List.mem_map.mpr ⟨p, hpmem, rfl⟩
    · rw [if_neg hu]
      obtain ⟨s, hw, hs⟩ := weightedWalk_mem m.freq v hnn hv0 hvF
      rw [hw]
      unfold resultIsStoredKey
      rw [decide_eq_true_eq]
      exact hs

/-- Witness for C5: with stepSize 1 and the single call `update (0, 5)`,
the model holds `freq = [(0, 1)]`; sampling with `u = 1`, `ridx = 0`,
`v = 0` returns the stored key 0, and the empty model fails with `empty`. -/
theorem sat_getNextState_total_witness :
    (StateActionTransition.mk0 1 1 :
        StateActionTransition ℕ).getNextState 0 0 0 =
      Except.error SATError.empty ∧
    0 < StateActionTransition.freqSum ((StateActionTransition.mk0 1 1 :
      StateActionTransition ℕ).applyUpdates [(0, 5)]).freq ∧
    resultIsStoredKey ((StateActionTransition.mk0 1 1 :
        StateActionTransition ℕ).applyUpdates [(0, 5)])
      (((StateActionTransition.mk0 1 1 :
        StateActionTransition ℕ).applyUpdates [(0, 5)]).getNextState 1 0 0) =
      true :=
  sat_getNextState_total (S := ℕ) 1 1 (by decide) (by decide)
    (StateActionTransition.mk0 1 1) rfl (0, 5) [] 1 0 0
    (by norm_num)
    (by norm_num [StateActionTransition.applyUpdates,
      StateActionTransition.update, StateActionTransition.mk0,
      StateActionTransition.freqSum, mapInsert, mapSet, alookup])
    0 0 0

end SATClaims

section TileCoding

/-- `rl::coding::DimensionInfo<FLOAT>`: the pair `_range`, the ideal grid
count `_gridCountIdeal` (an `rl::UINT`) and `_generalizationScale`. -/
structure DimensionInfo where
  lower : ℚ
  upper : ℚ
  gridCountIdeal : ℕ
  generalizationScale : ℚ
deriving DecidableEq

namespace DimensionInfo

/-- The three-argument constructor: stores the range and grid count and
defaults `_generalizationScale` to 1.  The source constructor body performs
no validation of any argument, so, modelled as the fallible construction the
spec's error design calls for, it always returns `Except.ok`. -/
def construct (lowerRange higherRange : ℚ) (gridCount : ℕ) :
    Except Unit DimensionInfo :=
  Except.ok ⟨lowerRange, higherRange, gridCount, 1⟩

/-- The four-argument constructor, likewise validation-free. -/
def construct4 (lowerRange higherRange : ℚ) (gridCount : ℕ)
    (generalizationScale : ℚ) : Except Unit DimensionInfo :=
  Except.ok ⟨lowerRange, higherRange, gridCount, generalizationScale⟩

/-- `GetRangeDifference()`: `std::abs(_range.first - _range.second)`. -/
def GetRangeDifference (d : DimensionInfo) : ℚ := |d.lower - d.upper|

/-- `GetOffsets()`: `GetRangeDifference() / _gridCountIdeal`. -/
def GetOffsets (d : DimensionInfo) : ℚ := d.GetRangeDifference / d.gridCountIdeal

/-- `GetGridCountReal()`: `_gridCountIdeal + 1`. -/
def GetGridCountReal (d : DimensionInfo) : ℕ := d.gridCountIdeal + 1

end DimensionInfo

/-- The default `DimensionInfo` used for out-of-range list reads (never hit
under the claims' in-range hypotheses; `std::array::at` would throw). -/
def dfltDim : DimensionInfo := ⟨0, 0, 0, 0⟩

/-- `TileCode<D, NUM_TILINGS>` state: the dimension array, the tiling count,
the per-tiling per-dimension `_randomOffsets`, the `_sizeCache`, and the
weight vector `_w` (zero-initialised, untouched by feature extraction). -/
structure TileCode where
  dims : List DimensionInfo
  numTilings : ℕ
  randomOffsets : List (List ℚ)
  sizeCache : ℕ
  w : List ℚ

/-- `TileCode::_calculateSize`: `size = 1; for di in dims: size *=
di.GetGridCountReal(); size *= NUM_TILINGS`. -/
def calculateSize (dims : List DimensionInfo) (numTilings : ℕ) : ℕ :=
  (dims.foldl (fun size di => size * di.GetGridCountReal) 1) * numTilings

/-- The `TileCode` constructor with the random draws made explicit:
`draws i j` stands for the `U(0,1)` sample `distribution(_pseudoRNG)` taken
for tiling `i`, dimension `j`; each stored offset is that draw times
`GetOffsets()` times `getGeneralizationScale()`. -/
def TileCode.make (dims : List DimensionInfo) (numTilings : ℕ)
    (draws : ℕ → ℕ → ℚ) : TileCode :=
  { dims := dims
    numTilings := numTilings
    randomOffsets := (List.range numTilings).map (fun i =>
      (List.range dims.length).map (fun j =>
        draws i j * (dims.getD j dfltDim).GetOffsets
          * (dims.getD j dfltDim).generalizationScale))
    sizeCache := calculateSize dims numTilings
    w := List.replicate (calculateSize dims numTilings) 0 }

namespace TileCode

/-- `_dimensionalInfos.at(j)`. -/
def dimAt (tc : TileCode) (j : ℕ) : DimensionInfo := tc.dims.getD j dfltDim

/-- `_randomOffsets.at(i).at(j)`. -/
def offsetAt (tc : TileCode) (i j : ℕ) : ℚ :=
  (tc.randomOffsets.getD i []).getD j 0

/-- `getSize()`: returns `_sizeCache`. -/
def getSize (tc : TileCode) : ℕ := tc.sizeCache

/-- `getNumTilings()`. -/
def getNumTilings (tc : TileCode) : ℕ := tc.numTilings

/-- `paramToGridValue(param, tilingIndex, dimensionIndex)`: the float
expression `((param + randomOffset * generalizationScale - lowerBound) *
gridCountIdeal) / rangeMagnitude`, truncated by the conversion to `size_t`
(`Int.toNat ∘ Int.floor`; the value is non-negative whenever `param` is at
least the lower bound, matching the defined behaviour of the cast). -/
def paramToGridValue (tc : TileCode) (param : ℚ) (tilingIndex dimensionIndex : ℕ) :
    ℕ :=
  let randomOffset := tc.offsetAt tilingIndex dimensionIndex
  let di := tc.dimAt dimensionIndex
  (Int.floor (((param + randomOffset * di.generalizationScale - di.lower)
    * di.gridCountIdeal) / di.GetRangeDifference)).toNat

end TileCode

/-- The inner loop of `TileCodeCorrect::getFeatureVector` for one tiling:
starting from `hashedIndex = 0`, `mult = 1`, each dimension `j` adds its
grid value times `mult` and multiplies `mult` by that dimension's
`GetGridCountReal()`.  Returns the final `(hashedIndex, mult)` pair. -/
def tileLoop (pairs : List (ℕ × ℕ)) : ℕ × ℕ :=
  pairs.foldl (fun acc p => (acc.1 + p.1 * acc.2, acc.2 * p.2)) (0, 1)

/-- The per-tiling index of `TileCodeCorrect`: the loop's `hashedIndex` plus
`mult * i` for tiling number `i`. -/
def tileIndex (gs rs : List ℕ) (t : ℕ) : ℕ :=
  (tileLoop (gs.zip rs)).1 + (tileLoop (gs.zip rs)).2 * t

/-- `TileCodeCorrect::getFeatureVector(parameters)`: one index per tiling,
each assembled by `tileLoop` over the grid values
`paramToGridValue(parameters.at(j), i, j)` and radices `GetGridCountReal()`,
plus `mult * i`. -/
def TileCode.getFeatureVector (tc : TileCode) (params : List ℚ) : List ℕ :=
  (List.range tc.numTilings).map (fun i =>
    tileIndex
      ((List.range tc.dims.length).map
        (fun j => tc.paramToGridValue (params.getD j 0) i j))
      (tc.dims.map DimensionInfo.GetGridCountReal) i)

/-- The closed form of `tileLoop`'s first component: the mixed-radix value
`g_0 + r_0*(g_1 + r_1*(...))`, i.e. `x1 + x2*r1 + x3*r1*r2 + ...` as the
source comments it. -/
def assembleVal : List ℕ → List ℕ → ℕ
  | g :: gs, r :: rs => g + r * assembleVal gs rs
  | _, _ => 0

/-- The product of the radices (the loop's final `mult`). -/
def prodList : List ℕ → ℕ
  | [] => 1
  | r :: rs => r * prodList rs

end TileCoding

section TileLemmas

lemma tileLoop_zip_aux : ∀ (gs rs : List ℕ) (h m : ℕ), gs.length = rs.length →
    (gs.zip rs).foldl (fun acc p => (acc.1 + p.1 * acc.2, acc.2 * p.2)) (h, m) =
      (h + m * assembleVal gs rs, m * prodList rs)
  | [], [], h, m, _ => by simp [assembleVal, prodList]
  | g :: gs, r :: rs, h, m, hlen => by
    simp only [List.zip_cons_cons, List.foldl_cons]
    rw [tileLoop_zip_aux gs rs (h + g * m) (m * r) (by simpa using hlen)]
    simp only [assembleVal, prodList, Prod.mk.injEq]
    constructor <;> ring

lemma tileLoop_zip_eq (gs rs : List ℕ) (hlen : gs.length = rs.length) :
    tileLoop (gs.zip rs) = (assembleVal gs rs, prodList rs) := by
  unfold tileLoop
  rw [tileLoop_zip_aux gs rs 0 1 hlen]
  simp

lemma tileIndex_eq (gs rs : List ℕ) (t : ℕ) (hlen : gs.length = rs.length) :
    tileIndex gs rs t = assembleVal gs rs + prodList rs * t := by
  unfold tileIndex
  rw [tileLoop_zip_eq gs rs hlen]

lemma assembleVal_lt {gs rs : List ℕ} (hf : List.Forall₂ (· < ·) gs rs) :
    assembleVal gs rs < prodList rs := by
  induction hf with
  | nil => simp [assembleVal, prodList]
  | @cons a b l₁ l₂ hab htl ih =>
    simp only [assembleVal, prodList]
    have h1 : assembleVal l₁ l₂ + 1 ≤ prodList l₂ := ih
    have h2 : b * (assembleVal l₁ l₂ + 1) ≤ b * prodList l₂ :=
      Nat.mul_le_mul_left b h1
    have h3 : a + b * assembleVal l₁ l₂ < b * (assembleVal l₁ l₂ + 1) := by
      rw [Nat.mul_succ]
      omega
    omega

lemma assembleVal_inj {gs gs' rs : List ℕ}
    (hf : List.Forall₂ (· < ·) gs rs) (hf' : List.Forall₂ (· < ·) gs' rs)
    (heq : assembleVal gs rs = assembleVal gs' rs) : gs = gs' := by
  induction hf generalizing gs' with
  | nil =>
    cases hf'
    rfl
  | @cons a b l₁ l₂ hab htl ih =>
    cases hf' with
    | @cons a' b' l₁' l₂' hab' htl' =>
      simp only [assembleVal] at heq
      have hb : 0 < b := Nat.pos_of_ne_zero (by omega)
      have hmod := congrArg (· % b) heq
      simp only [Nat.add_mul_mod_self_left] at hmod
      rw [Nat.mod_eq_of_lt hab, Nat.mod_eq_of_lt hab'] at hmod
      subst hmod
      have h2 : assembleVal l₁ l₂ = assembleVal l₁' l₂ :=
        Nat.eq_of_mul_eq_mul_left hb (by omega)
      rw [ih htl' h2]

lemma prodList_pos {gs rs : List ℕ} (hf : List.Forall₂ (· < ·) gs rs) :
    0 < prodList rs :=
  Nat.pos_of_ne_zero (by have := assembleVal_lt hf; omega)

lemma tileIndex_lt {gs rs : List ℕ} {t K : ℕ}
    (hf : List.Forall₂ (· < ·) gs rs) (ht : t < K) :
    tileIndex gs rs t < prodList rs * K := by
  rw [tileIndex_eq gs rs t hf.length_eq]
  have h1 : assembleVal gs rs < prodList rs := assembleVal_lt hf
  have h2 : prodList rs * (t + 1) ≤ prodList rs * K :=
    Nat.mul_le_mul_left _ (by omega)
  rw [Nat.mul_succ] at h2
  omega

lemma tileIndex_inj {gs gs' rs : List ℕ} {t t' K : ℕ}
    (hf : List.Forall₂ (· < ·) gs rs) (hf' : List.Forall₂ (· < ·) gs' rs)
    (ht : t < K) (ht' : t' < K)
    (heq : tileIndex gs rs t = tileIndex gs' rs t') : gs = gs' ∧ t = t' := by
  rw [tileIndex_eq gs rs t hf.length_eq, tileIndex_eq gs' rs t' hf'.length_eq] at heq
  have h1 : assembleVal gs rs < prodList rs := assembleVal_lt hf
  have h2 : assembleVal gs' rs < prodList rs := assembleVal_lt hf'
  have hP : 0 < prodList rs := prodList_pos hf
  have hdiv := congrArg (· / prodList rs) heq
  simp only [Nat.add_mul_div_left _ _ hP] at hdiv
  rw [Nat.div_eq_of_lt h1, Nat.div_eq_of_lt h2] at hdiv
  have htt : t = t' := by omega
  subst htt
  have hVV : assembleVal gs rs = assembleVal gs' rs := by omega
  exact ⟨assembleVal_inj hf hf' hVV, rfl⟩

lemma foldl_mul_shift (dims : List DimensionInfo) (a : ℕ) :
    dims.foldl (fun size di => size * di.GetGridCountReal) a =
      a * prodList (dims.map DimensionInfo.GetGridCountReal) := by
  induction dims generalizing a with
  | nil => simp [prodList]
  | cons d ds ih =>
    simp only [List.foldl_cons, List.map_cons, prodList]
    rw [ih (a * d.GetGridCountReal)]
    ring

lemma calculateSize_eq (dims : List DimensionInfo) (K : ℕ) :
    calculateSize dims K = prodList (dims.map DimensionInfo.GetGridCountReal) * K := by
  unfold calculateSize
  rw [foldl_mul_shift dims 1, one_mul]

lemma getD_range_map {α : Type} (n i : ℕ) (f : ℕ → α) (d : α) (h : i < n) :
    ((List.range n).map f).getD i d = f i := by
  rw [List.getD_eq_getD_get?, List.get?_map, List.get?_range h]
  rfl

lemma getD_mem {α : Type} (l : List α) (j : ℕ) (d : α) (h : j < l.length) :
    l.getD j d ∈ l := by
  rw [List.getD_eq_getD_get?]
  cases hg : l.get? j with
  | none =>
    rw [List.get?_eq_none] at hg
    omega
  | some a => simpa using List.get?_mem hg

lemma map_eq_range_map {α β : Type} (l : List α) (d : α) (h : α → β) :
    l.map h = (List.range l.length).map (fun j => h (l.getD j d)) := by
  apply List.ext_get?
  intro i
  rw [List.get?_map, List.get?_map]
  by_cases hi : i < l.length
  · rw [List.get?_range (by simpa using hi)]
    simp only [Option.map_some']
    rw [List.getD_eq_getD_get?]
    cases hg : l.get? i with
    | none => rw [List.get?_eq_none] at hg; omega
    | some a => simp
  · rw [List.get?_eq_none.mpr (by omega), List.get?_eq_none.mpr (by simp; omega)]
    simp

lemma forall₂_lt_range_map {n : ℕ} (f g : ℕ → ℕ) (h : ∀ j < n, f j < g j) :
    List.Forall₂ (· < ·) ((List.range n).map f) ((List.range n).map g) := by
  rw [List.forall₂_iff_get]
  refine ⟨by simp, ?_⟩
  intro i h1 h2
  have hn : i < n := by simpa using h1
  simp only [List.get_eq_getElem, List.getElem_map, List.getElem_range]
  exact h i hn

@[simp] lemma make_dims (dims : List DimensionInfo) (K : ℕ) (draws : ℕ → ℕ → ℚ) :
    (TileCode.make dims K draws).dims = dims := rfl

@[simp] lemma make_numTilings (dims : List DimensionInfo) (K : ℕ)
    (draws : ℕ → ℕ → ℚ) : (TileCode.make dims K draws).numTilings = K := rfl

@[simp] lemma make_getSize (dims : List DimensionInfo) (K : ℕ)
    (draws : ℕ → ℕ → ℚ) :
    (TileCode.make dims K draws).getSize = calculateSize dims K := rfl

lemma make_offsetAt (dims : List DimensionInfo) (K : ℕ) (draws : ℕ → ℕ → ℚ)
    (i j : ℕ) (hi : i < K) (hj : j < dims.length) :
    (TileCode.make dims K draws).offsetAt i j =
      draws i j * (dims.getD j dfltDim).GetOffsets
        * (dims.getD j dfltDim).generalizationScale := by
  unfold TileCode.offsetAt TileCode.make
  simp only
  rw [getD_range_map _ _ _ _ hi, getD_range_map _ _ _ _ hj]

/-- For an in-range input and a `U(0,1)` draw, the grid coordinate stays
below `GetGridCountReal()` provided the dimension's generalisation scale is
at most 1 (the per-tiling shift applied by `paramToGridValue`, the stored
offset times the scale once more, then stays below one quantum
`range / gridIdeal`). -/
lemma make_paramToGridValue_lt (dims : List DimensionInfo) (K : ℕ)
    (draws : ℕ → ℕ → ℚ) (i j : ℕ) (x : ℚ) (hi : i < K) (hj : j < dims.length)
    (hgrid : 1 ≤ (dims.getD j dfltDim).gridCountIdeal)
    (hlohi : (dims.getD j dfltDim).lower < (dims.getD j dfltDim).upper)
    (hgen0 : 0 ≤ (dims.getD j dfltDim).generalizationScale)
    (hgen1 : (dims.getD j dfltDim).generalizationScale ≤ 1)
    (hu0 : 0 ≤ draws i j) (hu1 : draws i j < 1)
    (hx0 : (dims.getD j dfltDim).lower ≤ x)
    (hx1 : x ≤ (dims.getD j dfltDim).upper) :
    (TileCode.make dims K draws).paramToGridValue x i j <
      (dims.getD j dfltDim).GetGridCountReal := by
  set di := dims.getD j dfltDim with hdi
  have hdimAt : (TileCode.make dims K draws).dimAt j = di := by
    unfold TileCode.dimAt
    rw [make_dims]
  unfold TileCode.paramToGridValue
  rw [make_offsetAt dims K draws i j hi hj, hdimAt, ← hdi]
  set u := draws i j with hu
  set g := di.generalizationScale with hg
  set n := di.gridCountIdeal with hn
  set R := di.upper - di.lower with hR
  have hRpos : 0 < R := by rw [hR]; linarith
  have hnQ : (0 : ℚ) < (n : ℚ) := by exact_mod_cast Nat.lt_of_lt_of_le Nat.zero_lt_one hgrid
  have hRdiff : di.GetRangeDifference = R := by
    unfold DimensionInfo.GetRangeDifference
    rw [abs_sub_comm, ← hR]
    exact abs_of_pos hRpos
  have hoffval : di.GetOffsets = R / (n : ℚ) := by
    unfold DimensionInfo.GetOffsets
    rw [hRdiff, hn]
  have hoffpos : (0 : ℚ) < R / (n : ℚ) := div_pos hRpos hnQ
  have hg2 : g * g ≤ 1 := by nlinarith
  have hshift0 : 0 ≤ u * (R / (n : ℚ)) * g * g := by
    have := mul_nonneg (mul_nonneg (mul_nonneg hu0 hoffpos.le) hgen0) hgen0
    linarith
  have hshift_lt : u * (R / (n : ℚ)) * g * g < R / (n : ℚ) := by
    have h1 : u * (R / (n : ℚ)) * g * g ≤ u * (R / (n : ℚ)) := by
      nlinarith [mul_nonneg hu0 hoffpos.le]
    have h2 : u * (R / (n : ℚ)) < 1 * (R / (n : ℚ)) :=
      mul_lt_mul_of_pos_right hu1 hoffpos
    linarith
  have hshiftn : (u * (R / (n : ℚ)) * g * g) * (n : ℚ) < R := by
    have := mul_lt_mul_of_pos_right hshift_lt hnQ
    rwa [div_mul_cancel₀ R (ne_of_gt hnQ)] at this
  have hq : ((x + u * (R / (n : ℚ)) * g * g - di.lower) * (n : ℚ)) /
      di.GetRangeDifference < (n : ℚ) + 1 := by
    rw [hRdiff, div_lt_iff hRpos]
    have hxl : x - di.lower ≤ R := by rw [hR]; linarith
    have hxln : (x - di.lower) * (n : ℚ) ≤ R * (n : ℚ) :=
      mul_le_mul_of_nonneg_right hxl hnQ.le
    nlinarith
  have hfl : Int.floor (((x + u * (R / (n : ℚ)) * g * g - di.lower) * (n : ℚ)) /
      di.GetRangeDifference) < (n : ℤ) + 1 := by
    rw [Int.floor_lt]
    push_cast
    convert hq using 2
  simp only [hoffval]
  unfold DimensionInfo.GetGridCountReal
  simp only [← hg, ← hn]
  omega

end TileLemmas

section TileClaims

/-- C3: the mixed-radix assembly of `TileCodeCorrect::getFeatureVector` is
injective on valid tuples and bounded by the weight-vector size: if two
grid-coordinate tuples (each coordinate below its dimension's
`GetGridCountReal()`) with tiling numbers below `NUM_TILINGS` produce the
same index, the tuples and tiling numbers coincide; and every such index is
below `_calculateSize = NUM_TILINGS * Π GetGridCountReal`. -/
theorem tileIndex_injective_bounded (dims : List DimensionInfo) (K : ℕ)
    (gs gs' : List ℕ) (t t' : ℕ)
    (hf : List.Forall₂ (· < ·) gs (dims.map DimensionInfo.GetGridCountReal))
    (hf' : List.Forall₂ (· < ·) gs' (dims.map DimensionInfo.GetGridCountReal))
    (ht : t < K) (ht' : t' < K)
    (heq : tileIndex gs (dims.map DimensionInfo.GetGridCountReal) t =
      tileIndex gs' (dims.map DimensionInfo.GetGridCountReal) t') :
    gs = gs' ∧ t = t' ∧
    tileIndex gs (dims.map DimensionInfo.GetGridCountReal) t <
      calculateSize dims K := by
  obtain ⟨hgs, htt⟩ := tileIndex_inj hf hf' ht ht' heq
  refine ⟨hgs, htt, ?_⟩
  rw [calculateSize_eq]
  exact tileIndex_lt hf ht

/-- C2 (amended: every dimension's generalisation scale is assumed to be at
most 1): for a `TileCodeCorrect` built with `U(0,1)` draws over dimensions
satisfying the constructor's documented invariants (`gridIdeal ≥ 1`,
`lo < hi`, `0 ≤ generalisation ≤ 1`), and any input point with
`lo_d ≤ x_d ≤ hi_d` in every dimension, `getFeatureVector` returns exactly
`NUM_TILINGS` indices, each strictly below `getSize()`. -/
theorem getFeatureVector_card_bounds
    (dims : List DimensionInfo) (K : ℕ) (draws : ℕ → ℕ → ℚ) (params : List ℚ)
    (hdraws : ∀ i j, 0 ≤ draws i j ∧ draws i j < 1)
    (hdims : ∀ di ∈ dims, 1 ≤ di.gridCountIdeal ∧ di.lower < di.upper ∧
      0 ≤ di.generalizationScale ∧ di.generalizationScale ≤ 1)
    (hlen : params.length = dims.length)
    (hin : ∀ j, j < dims.length →
      (dims.getD j dfltDim).lower ≤ params.getD j 0 ∧
        params.getD j 0 ≤ (dims.getD j dfltDim).upper) :
    ((TileCode.make dims K draws).getFeatureVector params).length = K ∧
    ((TileCode.make dims K draws).getFeatureVector params).all
      (fun idx => decide (idx < (TileCode.make dims K draws).getSize)) = true := by
  constructor
  · simp [TileCode.getFeatureVector]
  · rw [List.all_eq_true]
    intro idx hidx
    rw [decide_eq_true_eq]
    unfold TileCode.getFeatureVector at hidx
    obtain ⟨i, hir, rfl⟩ := List.mem_map.mp hidx
    have hiK : i < K := by simpa using List.mem_range.mp hir
    have hf : List.Forall₂ (· < ·)
        ((List.range (TileCode.make dims K draws).dims.length).map
          (fun j => (TileCode.make dims K draws).paramToGridValue
            (params.getD j 0) i j))
        ((TileCode.make dims K draws).dims.map DimensionInfo.GetGridCountReal) := by
      rw [make_dims]
      rw [map_eq_range_map dims dfltDim DimensionInfo.GetGridCountReal]
      apply forall₂_lt_range_map
      intro j hj
      obtain ⟨h1, h2, h3, h4⟩ := hdims _ (getD_mem dims j dfltDim hj)
      exact make_paramToGridValue_lt dims K draws i j (params.getD j 0) hiK hj
        h1 h2 h3 h4 (hdraws i j).1 (hdraws i j).2 (hin j hj).1 (hin j hj).2
    have hb := tileIndex_lt hf hiK
    rw [make_getSize, calculateSize_eq]
    simpa using hb

/-- Witness for C2 (amended): one dimension `[0,1]` with `gridIdeal = 10`,
generalisation 1, one tiling, zero draws, input `[0]`: one index, below
`getSize = 11`. -/
theorem getFeatureVector_card_bounds_witness :
    ((TileCode.make [⟨0, 1, 10, 1⟩] 1 (fun _ _ => 0)).getFeatureVector
      [0]).length = 1 ∧
    ((TileCode.make [⟨0, 1, 10, 1⟩] 1 (fun _ _ => 0)).getFeatureVector [0]).all
      (fun idx => decide (idx <
        (TileCode.make [⟨0, 1, 10, 1⟩] 1 (fun _ _ => 0)).getSize)) = true :=
  getFeatureVector_card_bounds [⟨0, 1, 10, 1⟩] 1 (fun _ _ => 0) [0]
    (fun i j => ⟨le_refl 0, by norm_num⟩)
    (by
      rintro di hdi
      simp only [List.mem_singleton] at hdi
      subst hdi
      exact ⟨by norm_num, by norm_num, by norm_num, by norm_num⟩)
    rfl
    (by
      intro j hj
      simp only [List.length_singleton] at hj
      have hj0 : j = 0 := by omega
      subst hj0
      exact ⟨by norm_num [List.getD_cons_zero, dfltDim],
        by norm_num [List.getD_cons_zero, dfltDim]⟩)

/-- The instance refuting C2 as stated: one dimension `[0,1]` with
`gridIdeal = 1` and generalisation scale 2, one tiling, and the legal draw
`u = 9/10`. -/
def tcBad : TileCode := TileCode.make [⟨0, 1, 1, 2⟩] 1 (fun _ _ => 9/10)

/-- Counterexample to C2 as stated: the claim has no restriction on the
generalisation scale, but for `tcBad` (scale 2, a value the constructor's
documentation allows) the in-range input `x = 1` produces feature index 4
while `getSize() = 2` — the index is out of range, and the source's own
`assert(hashedIndex <= _sizeCache)` fails on this input. -/
theorem getFeatureVector_range_cex :
    (tcBad.dimAt 0).lower ≤ 1 ∧ (1 : ℚ) ≤ (tcBad.dimAt 0).upper ∧
    tcBad.getFeatureVector [1] = [4] ∧
    tcBad.getSize = 2 ∧
    (tcBad.getFeatureVector [1]).all
      (fun idx => decide (idx < tcBad.getSize)) = false := by
  have hfloor : Int.floor ((23 : ℚ)/5) = 4 := by
    rw [Int.floor_eq_iff]
    constructor <;> norm_num
  have hrange : List.range 1 = [0] := rfl
  refine ⟨?_, ?_, ?_, ?_, ?_⟩ <;>
    (norm_num [tcBad, TileCode.getFeatureVector, tileIndex, tileLoop,
      TileCode.paramToGridValue, TileCode.offsetAt, TileCode.dimAt,
      TileCode.make, TileCode.getSize, calculateSize, dfltDim,
      DimensionInfo.GetOffsets, DimensionInfo.GetRangeDifference,
      DimensionInfo.GetGridCountReal, hrange, List.getD_cons_zero,
      List.foldl_cons, List.foldl_nil, List.zip_cons_cons, hfloor,
      Int.toNat_ofNat]
     all_goals decide)

/-- The 1-D coder of scenario S1: `DimensionInfo(lo=0, hi=1, gridIdeal=10,
generalisation=1)`, `NUM_TILINGS = 1`, all random draws zero. -/
def tcS1 : TileCode := TileCode.make [⟨0, 1, 10, 1⟩] 1 (fun _ _ => 0)

/-- C4: scenario S1 — `featuresOf(0.0) = [0]`, `featuresOf(1.0) = [10]`,
`featuresOf(0.55) = [5]`. -/
theorem tileCode_scenario_S1 :
    tcS1.getFeatureVector [0] = [0] ∧
    tcS1.getFeatureVector [1] = [10] ∧
    tcS1.getFeatureVector [(0.55 : ℚ)] = [5] := by
  have hf0 : Int.floor ((0 : ℚ)) = 0 := Int.floor_zero
  have hf10 : Int.floor ((10 : ℚ)) = 10 := by
    rw [Int.floor_eq_iff]
    constructor <;> norm_num
  have hf5 : Int.floor ((11 : ℚ)/2) = 5 := by
    rw [Int.floor_eq_iff]
    constructor <;> norm_num
  have hrange : List.range 1 = [0] := rfl
  refine ⟨?_, ?_, ?_⟩ <;>
    (norm_num [tcS1, TileCode.getFeatureVector, tileIndex, tileLoop,
      TileCode.paramToGridValue, TileCode.offsetAt, TileCode.dimAt,
      TileCode.make, calculateSize, dfltDim,
      DimensionInfo.GetOffsets, DimensionInfo.GetRangeDifference,
      DimensionInfo.GetGridCountReal, hrange, List.getD_cons_zero,
      List.foldl_cons, List.foldl_nil, List.zip_cons_cons, hf0, hf10, hf5,
      Int.toNat_ofNat]
     all_goals decide)

/-- Counterexample to C8 as stated: constructing a `DimensionInfo` with
`hi ≤ lo` and `gridIdeal = 0`, or with a negative generalisation scale, or a
`StateActionTransition` with `greedy = 2` and `stepSize = 5` (both outside
their documented ranges) succeeds and stores the raw values — no
InvalidConfig error is raised at construction time. -/
theorem construct_no_validation_cex :
    DimensionInfo.construct 1 0 0 = Except.ok ⟨1, 0, 0, 1⟩ ∧
    DimensionInfo.construct4 0 0 0 (-3) = Except.ok ⟨0, 0, 0, -3⟩ ∧
    StateActionTransition.construct (S := ℕ) 2 5 = Except.ok ⟨[], [], 2, 5⟩ :=
  ⟨rfl, rfl, rfl⟩

/-- C8 (amended): the constructors of `DimensionInfo` and
`StateActionTransition` perform no validation at all — for every argument
tuple (including non-positive `gridIdeal`, `hi ≤ lo` and out-of-range
hyperparameters) they succeed and store the arguments unchanged, and no
InvalidConfig error exists at construction time. -/
theorem construct_total_no_validation (lo hi : ℚ) (gc : ℕ) (gen g β : ℚ) :
    DimensionInfo.construct lo hi gc = Except.ok ⟨lo, hi, gc, 1⟩ ∧
    DimensionInfo.construct4 lo hi gc gen = Except.ok ⟨lo, hi, gc, gen⟩ ∧
    StateActionTransition.construct (S := ℕ) g β = Except.ok ⟨[], [], g, β⟩ :=
  ⟨rfl, rfl, rfl⟩

/-- Witness for C3: one dimension with `GetGridCountReal() = 3` and two
tilings; the tuple `([1], 1)` maps to index 4, below `calculateSize = 6`. -/
theorem tileIndex_injective_bounded_witness :
    ([1] : List ℕ) = [1] ∧ (1 : ℕ) = 1 ∧
    tileIndex [1]
      (([⟨0, 1, 2, 1⟩] : List DimensionInfo).map DimensionInfo.GetGridCountReal)
      1 < calculateSize [⟨0, 1, 2, 1⟩] 2 :=
  tileIndex_injective_bounded [⟨0, 1, 2, 1⟩] 2 [1] [1] 1 1
    (List.Forall₂.cons (by norm_num [DimensionInfo.GetGridCountReal])
      List.Forall₂.nil)
    (List.Forall₂.cons (by norm_num [DimensionInfo.GetGridCountReal])
      List.Forall₂.nil)
    (by norm_num) (by norm_num) rfl

end TileClaims

end RLSpec
